import Mathlib

/-!
Verification of the asynchronous audit-event pipeline of the backend-go
repository (src/internal/app/handlers/user_handlers.go, lines 256-443,
plus the producer-side enqueue in createUserHandler).

The Go code is shallowly embedded: channels become explicit list-valued
buffers, the database becomes an oracle (`DBWorld`) saying which calls
succeed, side effects (rows persisted, log lines emitted) become explicit
result fields, and the worker select loops become step functions driven by
explicit traces of select outcomes.
-/

/-- Mirrors `auditLogEntry` (user_handlers.go:286-296).  `OldValues` and
`NewValues` are `interface{}` JSON payloads, opaque to the pipeline, so they
are embedded as optional strings; the `*sql.DB` handle is embedded as a
numeric connection identifier. -/
structure auditLogEntry where
  userId : Option Nat
  event : String
  table : String
  recordId : Nat
  oldValues : Option String
  newValues : Option String
  db : Nat
  deriving DecidableEq, Repr

/-- Log lines the pipeline can emit (`log.Printf` calls in the audit code). -/
inductive LogMsg where
  | beginFailed
  | prepareFailed
  | execFailed (e : auditLogEntry)
  | commitFailed
  | queueFull (recordId : Nat)
  deriving DecidableEq, Repr

/-- Oracle describing how the persistence store answers each call the
committer makes: can a transaction be opened on a handle, can the insert
statement be prepared, does an individual insert of a given entry through a
given handle succeed, does the commit succeed. -/
structure DBWorld where
  beginOk : Nat → Bool
  prepareOk : Nat → Bool
  insertOk : Nat → auditLogEntry → Bool
  commitOk : Nat → Bool

/-- Result of one committer invocation: which handle a transaction was
opened on (none if the batch was empty or `Begin` failed), the insert
attempts made in order (handle used, entry), the rows actually persisted in
the store (handle, entry), and the log lines emitted. -/
structure CommitResult where
  beganOn : Option Nat
  attempts : List (Nat × auditLogEntry)
  persisted : List (Nat × auditLogEntry)
  logs : List LogMsg
  deriving DecidableEq, Repr

/-- Mirrors `processAuditLog` (user_handlers.go:374-386): one direct
`entry.DB.Exec` insert through the entry's own handle.  The Go code discards
the `Exec` return values, so a failed insert emits no log line. -/
def processAuditLog (w : DBWorld) (entry : auditLogEntry) : CommitResult :=
  { beganOn := none
    attempts := [(entry.db, entry)]
    persisted := if w.insertOk entry.db entry then [(entry.db, entry)] else []
    logs := [] }

/-- Sequential fallback loop shared by the Begin-failed and Prepare-failed
branches of `processAuditBatch`: `for _, entry := range entries {
processAuditLog(entry) }`. -/
def fallbackLoop (w : DBWorld) (entries : List auditLogEntry) : CommitResult :=
  { beganOn := none
    attempts := entries.map (fun e => (e.db, e))
    persisted := (entries.filter (fun e => w.insertOk e.db e)).map (fun e => (e.db, e))
    logs := (entries.map (fun e => (processAuditLog w e).logs)).flatten }

/-- Mirrors `processAuditBatch` (user_handlers.go:389-443).  An empty batch
returns immediately.  Otherwise the handle of the first entry is used:
`Begin` failure and `Prepare` failure both fall back to the sequential
per-entry loop; on the transactional path the one prepared statement is
executed once per entry in order, each individual failure is logged and
skipped, and the final `Commit` persists exactly the successful inserts, or
none at all when the commit itself fails (implicit rollback, no retry). -/
def processAuditBatch (w : DBWorld) (entries : List auditLogEntry) : CommitResult :=
  match entries with
  | [] => { beganOn := none, attempts := [], persisted := [], logs := [] }
  | e0 :: _ =>
    let db := e0.db
    if ¬ w.beginOk db then
      let fb := fallbackLoop w entries
      { fb with logs := LogMsg.beginFailed :: fb.logs }
    else if ¬ w.prepareOk db then
      let fb := fallbackLoop w entries
      { fb with beganOn := some db, logs := LogMsg.prepareFailed :: fb.logs }
    else
      let execLogs := entries.filterMap
        (fun e => if w.insertOk db e then none else some (LogMsg.execFailed e))
      let successes := (entries.filter (fun e => w.insertOk db e)).map (fun e => (db, e))
      { beganOn := some db
        attempts := entries.map (fun e => (db, e))
        persisted := if w.commitOk db then successes else []
        logs := if w.commitOk db then execLogs else execLogs ++ [LogMsg.commitFailed] }

/-- Capacity of the ingestion channel `auditLogChan` (user_handlers.go:269). -/
def auditChanCap : Nat := 2000

/-- Capacity of the pre-formed-batch channel `auditBatchChan`
(user_handlers.go:270). -/
def auditBatchChanCap : Nat := 100

/-- Number of per-event accumulation workers, `numAuditWorkers`
(user_handlers.go:268). -/
def numAuditWorkers : Nat := 3

/-- Batch size bound in `auditWorker` (`len(batch) >= 10`,
user_handlers.go:331). -/
def auditBatchSize : Nat := 10

/-- Flush timer interval in milliseconds (`100 * time.Millisecond`,
user_handlers.go:322). -/
def auditTimerMs : Nat := 100

/-- Mirrors the producer-side non-blocking send
`select \x7b case auditLogChan <- entry: ... default: ... \x7d`
(user_handlers.go:686-700): if the buffered channel has free capacity the
entry is appended and the send succeeds, otherwise the entry is dropped,
the send reports failure and a queue-full warning is logged. -/
def tryEnqueue (queue : List auditLogEntry) (e : auditLogEntry) :
    List auditLogEntry × Bool × List LogMsg :=
  if queue.length < auditChanCap then (queue ++ [e], true, [])
  else (queue, false, [LogMsg.queueFull e.recordId])

/-- HTTP response already written by `createUserHandler` before the audit
enqueue is attempted (user_handlers.go:683): status 201 with message. -/
def createdResponse : Nat × String := (201, "User created")

/-- Tail of `createUserHandler` after the user row insert succeeded
(user_handlers.go:682-700): the 201 response is sent first, then the audit
entry is enqueued non-blockingly; the response does not depend on the
enqueue outcome. -/
def createUserAudit (queue : List auditLogEntry) (db userID : Nat)
    (req : String) : (Nat × String) × List auditLogEntry × Bool × List LogMsg :=
  let e : auditLogEntry :=
    { userId := none, event := "CREATE", table := "users", recordId := userID
      oldValues := none, newValues := some req, db := db }
  (createdResponse, tryEnqueue queue e)

/-- How a batch handed to `processAuditBatch` by a worker was triggered:
size threshold reached, flush timer fired, pre-formed batch received on
`auditBatchChan`, or shutdown signal observed. -/
inductive FlushKind where
  | size
  | timer
  | direct
  | stop
  deriving DecidableEq, Repr

/-- One call a worker makes to `processAuditBatch`: the trigger, the entries
of the batch each paired with the time it entered the worker (for a
pre-formed batch, the time the batch was received), and the time of the
call. -/
structure Flush where
  kind : FlushKind
  items : List (auditLogEntry × Nat)
  time : Nat
  deriving DecidableEq, Repr

/-- One outcome of the four-way `select` in `auditWorker`
(user_handlers.go:326-355), stamped with the time (ms) at which the worker
processes it: an entry received from `auditLogChan`, the batch timer firing,
a pre-formed batch received from `auditBatchChan`, or the closed
`auditStopCh` being observed. -/
inductive WEvent where
  | recv (e : auditLogEntry) (t : Nat)
  | timer (t : Nat)
  | recvBatch (b : List auditLogEntry) (t : Nat)
  | stop (t : Nat)
  deriving DecidableEq, Repr

/-- Time stamp of a worker select outcome. -/
def WEvent.time : WEvent → Nat
  | .recv _ t => t
  | .timer t => t
  | .recvBatch _ t => t
  | .stop t => t

/-- Checks that a timer-fire outcome happens exactly at the armed instant
`d`; any other outcome is unconstrained. -/
def WEvent.timerExact (ev : WEvent) (d : Nat) : Bool :=
  match ev with
  | .timer t => t == d
  | _ => true

/-- State of one `auditWorker` goroutine: the local batch (entries paired
with arrival times), the instant the armed `batchTimer` will fire, the time
of the last processed select outcome, whether the loop has returned, and the
batches handed to `processAuditBatch` so far, in order. -/
structure WState where
  batch : List (auditLogEntry × Nat)
  deadline : Nat
  now : Nat
  done : Bool
  flushes : List Flush
  deriving DecidableEq, Repr

/-- Initial `auditWorker` state (user_handlers.go:321-322): empty batch with
the timer armed to fire `auditTimerMs` after start (start taken as time 0). -/
def initWState : WState :=
  { batch := [], deadline := auditTimerMs, now := 0, done := false, flushes := [] }

/-- One iteration of the `auditWorker` select loop (user_handlers.go:326-355).
Receiving an entry appends it to the local batch and, once the batch holds
`auditBatchSize` entries, flushes it and resets the timer; a timer fire
flushes a non-empty batch and resets the timer regardless; a pre-formed
batch is processed directly, leaving the local batch and timer untouched;
the shutdown signal flushes a non-empty batch and returns. -/
def auditWorkerStep (s : WState) (ev : WEvent) : WState :=
  if s.done then s else
  match ev with
  | .recv e t =>
    let batch := s.batch ++ [(e, t)]
    if auditBatchSize ≤ batch.length then
      { s with batch := [], deadline := t + auditTimerMs, now := t
               flushes := s.flushes ++ [⟨.size, batch, t⟩] }
    else
      { s with batch := batch, now := t }
  | .timer t =>
    if s.batch.isEmpty then
      { s with deadline := t + auditTimerMs, now := t }
    else
      { s with batch := [], deadline := t + auditTimerMs, now := t
               flushes := s.flushes ++ [⟨.timer, s.batch, t⟩] }
  | .recvBatch b t =>
    { s with now := t, flushes := s.flushes ++ [⟨.direct, b.map (fun e => (e, t)), t⟩] }
  | .stop t =>
    if s.batch.isEmpty then
      { s with done := true, now := t }
    else
      { s with batch := [], done := true, now := t
               flushes := s.flushes ++ [⟨.stop, s.batch, t⟩] }

/-- Run `auditWorker` over a trace of select outcomes. -/
def auditWorkerRun (s : WState) : List WEvent → WState
  | [] => s
  | ev :: evs => auditWorkerRun (auditWorkerStep s ev) evs

/-- Well-formed timing of a worker trace: select outcomes are processed at
non-decreasing times, nothing is processed after the armed timer's fire
instant without the timer firing first, and the timer fires exactly at its
armed instant.  This expresses that the Go runtime services the armed
`batchTimer` promptly.  A returned worker processes nothing more. -/
def wellTimed (s : WState) : List WEvent → Bool
  | [] => true
  | ev :: evs =>
    if s.done then wellTimed s evs
    else
      s.now ≤ ev.time && ev.time ≤ s.deadline &&
      ev.timerExact s.deadline &&
      wellTimed (auditWorkerStep s ev) evs

/-- One outcome of the two-way `select` in `auditBatchWorker`
(user_handlers.go:363-370): a pre-formed batch or the shutdown signal. -/
inductive BWEvent where
  | recvBatch (b : List auditLogEntry) (t : Nat)
  | stop (t : Nat)
  deriving DecidableEq, Repr

/-- State of the dedicated `auditBatchWorker` goroutine: it keeps no local
batch and no timer. -/
structure BWState where
  done : Bool
  flushes : List Flush
  deriving DecidableEq, Repr

/-- One iteration of the `auditBatchWorker` select loop
(user_handlers.go:363-370): a received pre-formed batch is processed
directly; the shutdown signal makes the worker return at once. -/
def auditBatchWorkerStep (s : BWState) (ev : BWEvent) : BWState :=
  if s.done then s else
  match ev with
  | .recvBatch b t =>
    { s with flushes := s.flushes ++ [⟨.direct, b.map (fun e => (e, t)), t⟩] }
  | .stop _ => { s with done := true }

/-- Run `auditBatchWorker` over a trace of select outcomes. -/
def auditBatchWorkerRun (s : BWState) : List BWEvent → BWState
  | [] => s
  | ev :: evs => auditBatchWorkerRun (auditBatchWorkerStep s ev) evs

/-- State of one per-event worker inside the whole-pipeline model: its local
batch and whether its goroutine has returned. -/
structure PWorker where
  batch : List auditLogEntry
  done : Bool
  deriving DecidableEq, Repr

/-- Whole-pipeline state: the buffered contents of `auditLogChan` and
`auditBatchChan`, the `numAuditWorkers` per-event workers, the dedicated
batch worker, whether `close(auditStopCh)` has happened, the batches handed
to `processAuditBatch` so far (tagged by consuming worker), and the warning
log lines from rejected enqueues. -/
structure PState where
  queue : List auditLogEntry
  batchQueue : List (List auditLogEntry)
  workers : List PWorker
  batchWorkerDone : Bool
  stopClosed : Bool
  flushed : List (Option Nat × FlushKind × List auditLogEntry)
  logs : List LogMsg
  deriving DecidableEq, Repr

/-- Pipeline state right after `StartAuditLogger` (user_handlers.go:299-309):
empty channels, `numAuditWorkers` per-event workers plus the dedicated batch
worker all running, stop channel open. -/
def initPState : PState :=
  { queue := [], batchQueue := []
    workers := List.replicate numAuditWorkers ⟨[], false⟩
    batchWorkerDone := false, stopClosed := false, flushed := [], logs := [] }

/-- Scheduler choices in the whole-pipeline model.  Each action is one
enabled step of some goroutine: a producer enqueueing an event or a
pre-formed batch, per-event worker `i` taking one of its four select arms,
the dedicated worker taking one of its two, or `StopAuditLogger` closing
`auditStopCh`.  Go selects among ready cases pseudo-randomly, so after
`close(auditStopCh)` a worker may take its stop arm even while the channels
still hold buffered data; the scheduler trace resolves that choice. -/
inductive PAct where
  | enqueue (e : auditLogEntry)
  | enqueueBatch (b : List auditLogEntry)
  | recvEvent (i : Nat)
  | fireTimer (i : Nat)
  | recvBatchWorker (i : Nat)
  | recvBatchDedicated
  | closeStop
  | stopWorker (i : Nat)
  | stopDedicated
  deriving DecidableEq, Repr

/-- Update worker `i` in the worker list. -/
def setWorker (ws : List PWorker) (i : Nat) (w : PWorker) : List PWorker :=
  ws.set i w

/-- One scheduler step of the whole pipeline.  Guards mirror channel
semantics: receives need a non-empty buffer and a live worker, the stop arms
need `auditStopCh` closed and a live worker, buffered sends need free
capacity (a full `auditLogChan` drops the event with a warning,
user_handlers.go:697-699).  An action whose guard fails leaves the state
unchanged (the scheduler never picks it in a real run). -/
def pipelineStep (s : PState) (a : PAct) : PState :=
  match a with
  | .enqueue e =>
    if s.queue.length < auditChanCap then { s with queue := s.queue ++ [e] }
    else { s with logs := s.logs ++ [LogMsg.queueFull e.recordId] }
  | .enqueueBatch b =>
    if s.batchQueue.length < auditBatchChanCap then
      { s with batchQueue := s.batchQueue ++ [b] }
    else s
  | .recvEvent i =>
    match s.queue, s.workers.get? i with
    | e :: rest, some w =>
      if w.done then s
      else
        let batch := w.batch ++ [e]
        if auditBatchSize ≤ batch.length then
          { s with queue := rest
                   workers := setWorker s.workers i ⟨[], false⟩
                   flushed := s.flushed ++ [(some i, .size, batch)] }
        else
          { s with queue := rest, workers := setWorker s.workers i ⟨batch, false⟩ }
    | _, _ => s
  | .fireTimer i =>
    match s.workers.get? i with
    | some w =>
      if w.done ∨ w.batch.isEmpty then s
      else
        { s with workers := setWorker s.workers i ⟨[], false⟩
                 flushed := s.flushed ++ [(some i, .timer, w.batch)] }
    | none => s
  | .recvBatchWorker i =>
    match s.batchQueue, s.workers.get? i with
    | b :: rest, some w =>
      if w.done then s
      else { s with batchQueue := rest
                    flushed := s.flushed ++ [(some i, .direct, b)] }
    | _, _ => s
  | .recvBatchDedicated =>
    match s.batchQueue with
    | b :: rest =>
      if s.batchWorkerDone then s
      else { s with batchQueue := rest
                    flushed := s.flushed ++ [(none, .direct, b)] }
    | [] => s
  | .closeStop => { s with stopClosed := true }
  | .stopWorker i =>
    match s.workers.get? i with
    | some w =>
      if s.stopClosed ∧ ¬ w.done then
        if w.batch.isEmpty then
          { s with workers := setWorker s.workers i ⟨[], true⟩ }
        else
          { s with workers := setWorker s.workers i ⟨[], true⟩
                   flushed := s.flushed ++ [(some i, .stop, w.batch)] }
      else s
    | none => s
  | .stopDedicated =>
    if s.stopClosed then { s with batchWorkerDone := true } else s

/-- Run the pipeline over a scheduler trace. -/
def pipelineRun (s : PState) : List PAct → PState
  | [] => s
  | a :: acts => pipelineRun (pipelineStep s a) acts

/-- The instant `StopAuditLogger` (user_handlers.go:312-315) returns:
`auditStopCh` is closed and `auditWorkerWG.Wait()` has seen every worker
goroutine return. -/
def stopReturned (s : PState) : Prop :=
  s.stopClosed ∧ s.batchWorkerDone ∧ ∀ w ∈ s.workers, w.done

/-- Sample audit entry used in concrete witnesses: record id `i`, DB handle
`d`, shaped like the CREATE-user entries built at user_handlers.go:687-695. -/
def sampleEntryDb (i d : Nat) : auditLogEntry :=
  { userId := none, event := "CREATE", table := "users", recordId := i
    oldValues := none, newValues := none, db := d }

/-- Sample audit entry on DB handle 0. -/
def sampleEntry (i : Nat) : auditLogEntry := sampleEntryDb i 0

/-- Store oracle on which every call succeeds. -/
def allOkWorld : DBWorld :=
  ⟨fun _ => true, fun _ => true, fun _ _ => true, fun _ => true⟩

/-- Store oracle on which only the final `Commit` fails. -/
def commitFailWorld : DBWorld :=
  ⟨fun _ => true, fun _ => true, fun _ _ => true, fun _ => false⟩

/-- Store oracle on which `Begin` fails and the direct insert succeeds only
for record id 0. -/
def beginFailWorld : DBWorld :=
  ⟨fun _ => false, fun _ => true, fun _ e => decide (e.recordId = 0), fun _ => true⟩

/-- Store oracle on which `Prepare` fails and the direct insert succeeds only
for record id 0. -/
def prepareFailWorld : DBWorld :=
  ⟨fun _ => true, fun _ => false, fun _ e => decide (e.recordId = 0), fun _ => true⟩

/-- Store oracle on which transactions work but the individual insert
succeeds only for record id 0. -/
def insertFailWorld : DBWorld :=
  ⟨fun _ => true, fun _ => true, fun _ e => decide (e.recordId = 0), fun _ => true⟩

/-- A full ingestion queue: `auditChanCap` buffered entries. -/
def fullQueue : List auditLogEntry := List.replicate auditChanCap (sampleEntry 0)

/-- A list of n sample entries, all arriving at time 0. -/
def sampleEntries (n : Nat) : List (auditLogEntry × Nat) :=
  (List.range n).map (fun i => (sampleEntry i, 0))

/-- Timing invariant of a worker state: the armed timer fires no later than
`auditTimerMs` after the last processed instant, every entry sitting in the
local batch will see the timer fire within `auditTimerMs` of its arrival,
and every recorded flush happened within `auditTimerMs` of each of its
items' arrivals. -/
def timeInv (s : WState) : Prop :=
  s.deadline ≤ s.now + auditTimerMs ∧
  (∀ p ∈ s.batch, s.deadline ≤ p.2 + auditTimerMs) ∧
  (∀ f ∈ s.flushes, ∀ p ∈ f.items, f.time ≤ p.2 + auditTimerMs)

/-- Pipeline invariant: a worker goroutine that has returned left no entry
behind in its local batch. -/
def pipelineInv (s : PState) : Prop :=
  ∀ w ∈ s.workers, w.done = true → w.batch = []

/-- Scheduler trace refuting the drain claim: one event is enqueued
successfully, then `StopAuditLogger` closes `auditStopCh`; every worker's
`select` takes the now-always-ready stop arm (legal in Go even while
`auditLogChan` holds buffered data) and returns with an empty local batch;
`auditWorkerWG.Wait()` then lets `StopAuditLogger` return. -/
def c1Acts : List PAct :=
  [PAct.enqueue (sampleEntry 0), PAct.closeStop, PAct.stopWorker 0,
   PAct.stopWorker 1, PAct.stopWorker 2, PAct.stopDedicated]

/-- The per-entry fallback inserts emit no log lines (`processAuditLog`
discards the `Exec` error). -/
theorem processAuditLog_logs_nil (w : DBWorld) (es : List auditLogEntry) :
    (es.map (fun e => (processAuditLog w e).logs)).flatten = [] := by
  induction es with
  | nil => rfl
  | cons e es ih =>
    rw [List.map_cons, List.flatten_cons, ih]
    rfl

/-- C2: the producer-side enqueue never blocks: the queue capacity is fixed
at 2000; at capacity the enqueue returns at once with `enqueued = false`,
drops the event and logs a queue-full warning; below capacity the event is
appended and the enqueue reports success; and in `createUserHandler` the 201
response is the same either way — the triggering request succeeds unchanged. -/
theorem c2_submit_event_nonblocking (queue : List auditLogEntry)
    (e : auditLogEntry) (db userID : Nat) (req : String) :
    auditChanCap = 2000 ∧
    (auditChanCap ≤ queue.length →
      tryEnqueue queue e = (queue, false, [LogMsg.queueFull e.recordId])) ∧
    (queue.length < auditChanCap →
      tryEnqueue queue e = (queue ++ [e], true, [])) ∧
    (createUserAudit queue db userID req).1 = createdResponse := by
  refine ⟨rfl, ?_, ?_, rfl⟩
  · intro h
    simp [tryEnqueue, Nat.not_lt.mpr h]
  · intro h
    simp [tryEnqueue, h]

/-- Witness for C2 at a queue of exactly 2000 entries and at the empty
queue. -/
theorem c2_submit_event_nonblocking_witness :
    tryEnqueue fullQueue (sampleEntry 1) =
      (fullQueue, false, [LogMsg.queueFull 1]) ∧
    tryEnqueue [] (sampleEntry 1) = ([sampleEntry 1], true, []) := by
  have h1 := c2_submit_event_nonblocking fullQueue (sampleEntry 1) 0 0 ""
  have h2 := c2_submit_event_nonblocking ([] : List auditLogEntry) (sampleEntry 1) 0 0 ""
  refine ⟨?_, ?_⟩
  · exact h1.2.1 (by simp [fullQueue])
  · exact h2.2.2.1 (by simp [auditChanCap])

/-- C3: on the transactional path (transaction opened, statement prepared)
the commit persists exactly the events whose individual insert succeeded,
or none at all when the commit itself fails, and every event is attempted
exactly once — no retry happens at this layer. -/
theorem c3_tx_commit_all_or_nothing (w : DBWorld) (e0 : auditLogEntry)
    (es : List auditLogEntry)
    (hb : w.beginOk e0.db = true) (hp : w.prepareOk e0.db = true) :
    ((processAuditBatch w (e0 :: es)).persisted =
      if w.commitOk e0.db then
        ((e0 :: es).filter (fun e => w.insertOk e0.db e)).map (fun e => (e0.db, e))
      else []) ∧
    (processAuditBatch w (e0 :: es)).attempts =
      (e0 :: es).map (fun e => (e0.db, e)) := by
  constructor <;> simp [processAuditBatch, hb, hp]

/-- Witness for C3: a two-entry batch on a store whose commit fails persists
nothing. -/
theorem c3_tx_commit_all_or_nothing_witness :
    (processAuditBatch commitFailWorld [sampleEntry 0, sampleEntry 1]).persisted = [] ∧
    (processAuditBatch commitFailWorld [sampleEntry 0, sampleEntry 1]).attempts =
      [(0, sampleEntry 0), (0, sampleEntry 1)] := by
  have h := c3_tx_commit_all_or_nothing commitFailWorld (sampleEntry 0) [sampleEntry 1] rfl rfl
  refine ⟨?_, ?_⟩
  · simpa [commitFailWorld] using h.1
  · rw [h.2]; rfl

/-- C4 as stated is false: on the fallback path (`Begin` failed) every event
of the batch is still attempted independently through its own handle and a
failed insert does not block the rest, but the per-event failure is NOT
logged — `processAuditLog` discards the `Exec` error, so the only log line
is the Begin failure itself.  Concrete refutation: `Begin` fails, the insert
of entry 1 fails, entry 0 is persisted anyway, yet the log contains no
per-event failure message for entry 1. -/
theorem c4_fallback_counterexample :
    beginFailWorld.insertOk (sampleEntry 1).db (sampleEntry 1) = false ∧
    (processAuditBatch beginFailWorld [sampleEntry 0, sampleEntry 1]).persisted =
      [(0, sampleEntry 0)] ∧
    (processAuditBatch beginFailWorld [sampleEntry 0, sampleEntry 1]).logs =
      [LogMsg.beginFailed] ∧
    LogMsg.execFailed (sampleEntry 1) ∉
      (processAuditBatch beginFailWorld [sampleEntry 0, sampleEntry 1]).logs := by
  refine ⟨rfl, rfl, ?_, ?_⟩ <;> decide

/-- C4 amended: if opening the transaction fails, or preparing the insert
statement fails, the committer falls back to persisting each event of the
batch independently and sequentially through that entry's own handle; each
independent per-event failure is silently ignored (the error is discarded,
not logged — the only log line is the Begin/Prepare failure itself) and does
not block the attempts for the subsequent events of the batch. -/
theorem c4_fallback_independent (w : DBWorld) (e0 : auditLogEntry)
    (es : List auditLogEntry) :
    (w.beginOk e0.db = false →
      (processAuditBatch w (e0 :: es)).attempts = (e0 :: es).map (fun e => (e.db, e)) ∧
      (processAuditBatch w (e0 :: es)).persisted =
        ((e0 :: es).filter (fun e => w.insertOk e.db e)).map (fun e => (e.db, e)) ∧
      (processAuditBatch w (e0 :: es)).logs = [LogMsg.beginFailed]) ∧
    (w.beginOk e0.db = true → w.prepareOk e0.db = false →
      (processAuditBatch w (e0 :: es)).attempts = (e0 :: es).map (fun e => (e.db, e)) ∧
      (processAuditBatch w (e0 :: es)).persisted =
        ((e0 :: es).filter (fun e => w.insertOk e.db e)).map (fun e => (e.db, e)) ∧
      (processAuditBatch w (e0 :: es)).logs = [LogMsg.prepareFailed]) := by
  constructor
  · intro hb
    refine ⟨?_, ?_, ?_⟩ <;>
      simp [processAuditBatch, fallbackLoop, hb, processAuditLog,
            processAuditLog_logs_nil]
  · intro hb hp
    refine ⟨?_, ?_, ?_⟩ <;>
      simp [processAuditBatch, fallbackLoop, hb, hp, processAuditLog,
            processAuditLog_logs_nil]

/-- Witness for amended C4 on both fallback triggers: a Begin failure and a
Prepare failure, each with a silently failing second insert. -/
theorem c4_fallback_independent_witness :
    (processAuditBatch beginFailWorld [sampleEntry 0, sampleEntryDb 1 7]).attempts =
      [(0, sampleEntry 0), (7, sampleEntryDb 1 7)] ∧
    (processAuditBatch prepareFailWorld [sampleEntry 0, sampleEntryDb 1 7]).persisted =
      [(0, sampleEntry 0)] ∧
    (processAuditBatch prepareFailWorld [sampleEntry 0, sampleEntryDb 1 7]).logs =
      [LogMsg.prepareFailed] := by
  have h1 := (c4_fallback_independent beginFailWorld (sampleEntry 0) [sampleEntryDb 1 7]).1 rfl
  have h2 := (c4_fallback_independent prepareFailWorld (sampleEntry 0) [sampleEntryDb 1 7]).2 rfl rfl
  refine ⟨?_, ?_, h2.2.2⟩
  · rw [h1.1]; rfl
  · rw [h2.2.1]; rfl

/-- C7: on the transactional path each event is inserted by executing the one
prepared statement once per event in batch order through the first entry's
handle; an individual insert failure is logged and the remaining events are
still attempted in the same transaction, which is still committed covering
whatever succeeded — a partial insert failure never aborts the batch. -/
theorem c7_partial_insert_failure_continues (w : DBWorld) (e0 : auditLogEntry)
    (es : List auditLogEntry)
    (hb : w.beginOk e0.db = true) (hp : w.prepareOk e0.db = true)
    (hc : w.commitOk e0.db = true) :
    (processAuditBatch w (e0 :: es)).attempts =
      (e0 :: es).map (fun e => (e0.db, e)) ∧
    (processAuditBatch w (e0 :: es)).persisted =
      ((e0 :: es).filter (fun e => w.insertOk e0.db e)).map (fun e => (e0.db, e)) ∧
    ∀ e ∈ e0 :: es, w.insertOk e0.db e = false →
      LogMsg.execFailed e ∈ (processAuditBatch w (e0 :: es)).logs := by
  refine ⟨?_, ?_, ?_⟩
  · simp [processAuditBatch, hb, hp]
  · simp [processAuditBatch, hb, hp, hc]
  · intro e he hins
    have hl : (processAuditBatch w (e0 :: es)).logs =
        (e0 :: es).filterMap
          (fun x => if w.insertOk e0.db x then none else some (LogMsg.execFailed x)) := by
      simp [processAuditBatch, hb, hp, hc]
    rw [hl, List.mem_filterMap]
    exact ⟨e, he, by simp [hins]⟩

/-- Witness for C7: entry 1's insert fails inside the transaction, is
logged, and entry 0 is still committed. -/
theorem c7_partial_insert_failure_continues_witness :
    LogMsg.execFailed (sampleEntry 1) ∈
      (processAuditBatch insertFailWorld [sampleEntry 0, sampleEntry 1]).logs ∧
    (processAuditBatch insertFailWorld [sampleEntry 0, sampleEntry 1]).persisted =
      [(0, sampleEntry 0)] := by
  have h := c7_partial_insert_failure_continues insertFailWorld (sampleEntry 0)
    [sampleEntry 1] rfl rfl rfl
  refine ⟨h.2.2 (sampleEntry 1) (by simp) (by decide), ?_⟩
  rw [h.2.1]; rfl

/-- C10: the transactional path uses only the DB handle of the batch's first
entry — the transaction is opened on it and, once the statement prepares,
every insert attempt of the batch goes through it, whatever the other
entries carry; only the per-event fallback path uses each entry's own
handle; and a committed empty batch performs no persistence action at all. -/
theorem c10_first_entry_handle (w : DBWorld) (e0 : auditLogEntry)
    (es : List auditLogEntry) :
    processAuditBatch w [] =
      { beganOn := none, attempts := [], persisted := [], logs := [] } ∧
    (w.beginOk e0.db = true →
      (processAuditBatch w (e0 :: es)).beganOn = some e0.db ∧
      (w.prepareOk e0.db = true →
        ∀ p ∈ (processAuditBatch w (e0 :: es)).attempts, p.1 = e0.db)) ∧
    (w.beginOk e0.db = false →
      (processAuditBatch w (e0 :: es)).beganOn = none ∧
      (processAuditBatch w (e0 :: es)).attempts =
        (e0 :: es).map (fun e => (e.db, e))) := by
  refine ⟨rfl, ?_, ?_⟩
  · intro hb
    constructor
    · by_cases hp : w.prepareOk e0.db = true
      · simp [processAuditBatch, hb, hp]
      · have hp2 : w.prepareOk e0.db = false := by simpa using hp
        simp [processAuditBatch, fallbackLoop, hb, hp2]
    · intro hp p hmem
      simp [processAuditBatch, hb, hp] at hmem
      rcases hmem with h1 | ⟨a, -, h2⟩
      · rw [h1]
      · rw [← h2]
  · intro hb
    constructor <;> simp [processAuditBatch, fallbackLoop, hb]

/-- Witness for C10: a batch whose second entry carries handle 7 is still
attempted entirely through the first entry's handle 0; Begin on an
all-success store happens on handle 0. -/
theorem c10_first_entry_handle_witness :
    (processAuditBatch allOkWorld [sampleEntry 0, sampleEntryDb 1 7]).beganOn = some 0 ∧
    (0, sampleEntryDb 1 7).1 = (sampleEntry 0).db ∧
    processAuditBatch allOkWorld [] =
      { beganOn := none, attempts := [], persisted := [], logs := [] } := by
  have h := c10_first_entry_handle allOkWorld (sampleEntry 0) [sampleEntryDb 1 7]
  refine ⟨(h.2.1 rfl).1, ?_, h.1⟩
  exact (h.2.1 rfl).2 rfl (0, sampleEntryDb 1 7) (by decide)

/-- Running a worker over a concatenated trace runs the pieces in order. -/
theorem auditWorkerRun_append (a b : List WEvent) (s : WState) :
    auditWorkerRun s (a ++ b) = auditWorkerRun (auditWorkerRun s a) b := by
  induction a generalizing s with
  | nil => rfl
  | cons ev evs ih => simp [auditWorkerRun, ih]

/-- A returned worker ignores any further select outcome. -/
theorem auditWorkerStep_done (s : WState) (ev : WEvent) (h : s.done = true) :
    auditWorkerStep s ev = s := by
  simp [auditWorkerStep, h]

/-- A returned worker ignores any further trace. -/
theorem auditWorkerRun_done (s : WState) (evs : List WEvent) (h : s.done = true) :
    auditWorkerRun s evs = s := by
  induction evs with
  | nil => rfl
  | cons ev evs ih => rw [auditWorkerRun, auditWorkerStep_done s ev h]; exact ih

/-- Accumulation bookkeeping for a trace consisting only of queue receives:
from a live state whose local batch is below the size bound, the final batch
length is the running total modulo the bound, the flush count grows by the
total divided by the bound, every new flush is size-triggered holding
exactly `auditBatchSize` entries, and the worker stays live. -/
theorem auditWorkerRun_recv_only (es : List (auditLogEntry × Nat)) (s : WState)
    (hd : s.done = false) (hb : s.batch.length < auditBatchSize) :
    (auditWorkerRun s (es.map (fun p => WEvent.recv p.1 p.2))).done = false ∧
    (auditWorkerRun s (es.map (fun p => WEvent.recv p.1 p.2))).batch.length =
      (s.batch.length + es.length) % auditBatchSize ∧
    (auditWorkerRun s (es.map (fun p => WEvent.recv p.1 p.2))).flushes.length =
      s.flushes.length + (s.batch.length + es.length) / auditBatchSize ∧
    ∀ f ∈ (auditWorkerRun s (es.map (fun p => WEvent.recv p.1 p.2))).flushes,
      f ∈ s.flushes ∨ (f.kind = FlushKind.size ∧ f.items.length = auditBatchSize) := by
  induction es generalizing s with
  | nil =>
    refine ⟨hd, ?_, ?_, fun f hf => Or.inl hf⟩
    · simp [auditWorkerRun, Nat.mod_eq_of_lt hb]
    · simp [auditWorkerRun, Nat.div_eq_of_lt hb]
  | cons p ps ih =>
    rw [List.map_cons]
    by_cases hsz : auditBatchSize ≤ s.batch.length + 1
    · have h9 : s.batch.length + 1 = auditBatchSize := Nat.le_antisymm hb hsz
      have hstep : auditWorkerStep s (WEvent.recv p.1 p.2) =
          { s with batch := [], deadline := p.2 + auditTimerMs, now := p.2
                   flushes := s.flushes ++
                     [⟨FlushKind.size, s.batch ++ [(p.1, p.2)], p.2⟩] } := by
        simp [auditWorkerStep, hd, hsz]
      rw [auditWorkerRun, hstep]
      obtain ⟨ih1, ih2, ih3, ih4⟩ :=
        ih { s with batch := [], deadline := p.2 + auditTimerMs, now := p.2
                    flushes := s.flushes ++
                      [⟨FlushKind.size, s.batch ++ [(p.1, p.2)], p.2⟩] }
          hd (by change ([] : List (auditLogEntry × Nat)).length < auditBatchSize; decide)
      have hA : auditBatchSize = 10 := rfl
      refine ⟨ih1, ?_, ?_, ?_⟩
      · rw [ih2]
        simp only [List.length_cons, List.length_nil, hA] at h9 ⊢
        omega
      · rw [ih3]
        simp only [List.length_append, List.length_cons, List.length_nil, hA] at h9 ⊢
        omega
      · intro f hf
        rcases ih4 f hf with hmem | hnew
        · rcases List.mem_append.mp hmem with hold | hsingle
          · exact Or.inl hold
          · refine Or.inr ?_
            rcases List.mem_singleton.mp hsingle with rfl
            refine ⟨rfl, ?_⟩
            simp [h9]
        · exact Or.inr hnew
    · have hstep : auditWorkerStep s (WEvent.recv p.1 p.2) =
          { s with batch := s.batch ++ [(p.1, p.2)], now := p.2 } := by
        simp [auditWorkerStep, hd, hsz]
      rw [auditWorkerRun, hstep]
      obtain ⟨ih1, ih2, ih3, ih4⟩ :=
        ih { s with batch := s.batch ++ [(p.1, p.2)], now := p.2 } hd
          (by change (s.batch ++ [(p.1, p.2)]).length < auditBatchSize
              simp only [List.length_append, List.length_cons, List.length_nil]
              omega)
      have hA : auditBatchSize = 10 := rfl
      refine ⟨ih1, ?_, ?_, fun f hf => ih4 f hf⟩
      · rw [ih2]
        simp only [List.length_append, List.length_cons, List.length_nil, hA]
        omega
      · rw [ih3]
        simp only [List.length_append, List.length_cons, List.length_nil, hA]
        omega

/-- C6: in a single-worker run in which the flush timer never fires and no
shutdown occurs (a trace of queue receives only), a flush is triggered
exactly when the local batch reaches the size threshold of 10, every
size-triggered flushed batch has length exactly 10, the number of flushes is
the event count divided by 10, the leftover batch holds the event count
modulo 10 entries, and those leftover entries are flushed only by a later
shutdown (or timer) flush, as a single batch of that leftover length. -/
theorem c6_size_threshold_flushes (es : List (auditLogEntry × Nat)) (t : Nat) :
    (auditWorkerRun initWState (es.map (fun p => WEvent.recv p.1 p.2))).batch.length =
      es.length % auditBatchSize ∧
    (auditWorkerRun initWState (es.map (fun p => WEvent.recv p.1 p.2))).flushes.length =
      es.length / auditBatchSize ∧
    (∀ f ∈ (auditWorkerRun initWState (es.map (fun p => WEvent.recv p.1 p.2))).flushes,
      f.kind = FlushKind.size ∧ f.items.length = auditBatchSize) ∧
    (es.length % auditBatchSize ≠ 0 →
      (auditWorkerRun initWState
          (es.map (fun p => WEvent.recv p.1 p.2) ++ [WEvent.stop t])).flushes =
        (auditWorkerRun initWState (es.map (fun p => WEvent.recv p.1 p.2))).flushes ++
          [⟨FlushKind.stop,
            (auditWorkerRun initWState (es.map (fun p => WEvent.recv p.1 p.2))).batch, t⟩] ∧
      (auditWorkerRun initWState
          (es.map (fun p => WEvent.recv p.1 p.2) ++ [WEvent.stop t])).batch = []) := by
  obtain ⟨h1, h2, h3, h4⟩ := auditWorkerRun_recv_only es initWState rfl (by decide)
  have hmod : (auditWorkerRun initWState
      (es.map (fun p => WEvent.recv p.1 p.2))).batch.length = es.length % auditBatchSize := by
    rw [h2]; simp [initWState]
  have hdiv : (auditWorkerRun initWState
      (es.map (fun p => WEvent.recv p.1 p.2))).flushes.length = es.length / auditBatchSize := by
    rw [h3]; simp [initWState]
  refine ⟨hmod, hdiv, ?_, ?_⟩
  · intro f hf
    rcases h4 f hf with hmem | hnew
    · exact absurd hmem (by simp [initWState])
    · exact hnew
  · intro hne
    have hnonempty : ¬ (auditWorkerRun initWState
        (es.map (fun p => WEvent.recv p.1 p.2))).batch.isEmpty = true := by
      rw [List.isEmpty_iff_length_eq_zero, hmod]
      exact hne
    rw [auditWorkerRun_append]
    constructor <;> simp [auditWorkerRun, auditWorkerStep, h1, hnonempty]

/-- Witness for C6: 25 events produce exactly two size-triggered batches of
10, the remaining 5 sit in the local batch and are flushed at shutdown as a
single batch of 5 (a third flush). -/
theorem c6_size_threshold_flushes_witness :
    (auditWorkerRun initWState
      ((sampleEntries 25).map (fun p => WEvent.recv p.1 p.2))).flushes.length = 2 ∧
    (auditWorkerRun initWState
      ((sampleEntries 25).map (fun p => WEvent.recv p.1 p.2))).batch.length = 5 ∧
    (auditWorkerRun initWState
      ((sampleEntries 25).map (fun p => WEvent.recv p.1 p.2) ++
        [WEvent.stop 0])).flushes.length = 3 := by
  obtain ⟨h1, h2, h3, h4⟩ := c6_size_threshold_flushes (sampleEntries 25) 0
  have hlen : (sampleEntries 25).length = 25 := by simp [sampleEntries]
  rw [hlen] at h1 h2 h4
  have h5 := h4 (by decide)
  refine ⟨by rw [h2]; decide, by rw [h1]; decide, ?_⟩
  rw [h5.1, List.length_append, h2]
  decide

/-- C8: when a per-event worker observes the shutdown signal it flushes its
local partial batch exactly once more — only if the batch is non-empty —
and then terminates its loop: whatever the rest of the trace holds, the
final state is the stop-step of the pre-stop state, so no further dequeues,
appends, or flushes happen after that final flush. -/
theorem c8_stop_flushes_once (pre post : List WEvent) (t : Nat)
    (h : (auditWorkerRun initWState pre).done = false) :
    auditWorkerRun initWState (pre ++ WEvent.stop t :: post) =
      (if (auditWorkerRun initWState pre).batch.isEmpty then
        { auditWorkerRun initWState pre with done := true, now := t }
       else
        { auditWorkerRun initWState pre with
            batch := [], done := true, now := t,
            flushes := (auditWorkerRun initWState pre).flushes ++
              [⟨FlushKind.stop, (auditWorkerRun initWState pre).batch, t⟩] }) := by
  have hsplit : pre ++ WEvent.stop t :: post = (pre ++ [WEvent.stop t]) ++ post := by
    simp
  rw [hsplit, auditWorkerRun_append, auditWorkerRun_append]
  have hstep : auditWorkerRun (auditWorkerRun initWState pre) [WEvent.stop t] =
      auditWorkerStep (auditWorkerRun initWState pre) (WEvent.stop t) := rfl
  rw [hstep]
  by_cases hb : (auditWorkerRun initWState pre).batch.isEmpty
  · rw [if_pos hb]
    have hs : auditWorkerStep (auditWorkerRun initWState pre) (WEvent.stop t) =
        { auditWorkerRun initWState pre with done := true, now := t } := by
      simp [auditWorkerStep, h, hb]
    rw [hs]
    exact auditWorkerRun_done _ post rfl
  · rw [if_neg hb]
    have hs : auditWorkerStep (auditWorkerRun initWState pre) (WEvent.stop t) =
        { auditWorkerRun initWState pre with
            batch := [], done := true, now := t,
            flushes := (auditWorkerRun initWState pre).flushes ++
              [⟨FlushKind.stop, (auditWorkerRun initWState pre).batch, t⟩] } := by
      simp [auditWorkerStep, h, hb]
    rw [hs]
    exact auditWorkerRun_done _ post rfl

/-- Witness for C8: a worker holding one entry sees the stop signal at time
50; it flushes that entry once and ignores the rest of the trace. -/
theorem c8_stop_flushes_once_witness :
    auditWorkerRun initWState
        ([WEvent.recv (sampleEntry 0) 20] ++ WEvent.stop 50 ::
          [WEvent.recv (sampleEntry 1) 60, WEvent.timer 100]) =
      { batch := [], deadline := auditTimerMs, now := 50, done := true,
        flushes := [⟨FlushKind.stop, [(sampleEntry 0, 20)], 50⟩] } := by
  rw [c8_stop_flushes_once [WEvent.recv (sampleEntry 0) 20]
    [WEvent.recv (sampleEntry 1) 60, WEvent.timer 100] 50 (by decide)]
  decide

/-- The worker step preserves the timing invariant whenever the processed
select outcome respects the armed timer (it happens between the last
processed instant and the timer's fire instant). -/
theorem timeInv_step (s : WState) (ev : WEvent) (hd : s.done = false)
    (h1 : s.now ≤ ev.time) (h2 : ev.time ≤ s.deadline) (hinv : timeInv s) :
    timeInv (auditWorkerStep s ev) := by
  obtain ⟨hA, hB, hC⟩ := hinv
  have hTle : s.deadline ≤ ev.time + auditTimerMs :=
    le_trans hA (Nat.add_le_add_right h1 _)
  cases ev with
  | recv e t =>
    simp only [WEvent.time] at h2 hTle
    by_cases hsz : auditBatchSize ≤ s.batch.length + 1
    · have hstep : auditWorkerStep s (WEvent.recv e t) =
          { s with
              batch := [], deadline := t + auditTimerMs, now := t,
              flushes := s.flushes ++
                [⟨FlushKind.size, s.batch ++ [(e, t)], t⟩] } := by
        simp [auditWorkerStep, hd, hsz]
      rw [hstep]
      refine ⟨Nat.le_refl _, fun p hp => absurd hp (List.not_mem_nil p), ?_⟩
      intro f hf
      rcases List.mem_append.mp hf with hold | hnewf
      · exact hC f hold
      · rcases List.mem_singleton.mp hnewf with rfl
        intro p hp
        rcases List.mem_append.mp hp with hpb | hpe
        · exact le_trans h2 (hB p hpb)
        · rcases List.mem_singleton.mp hpe with rfl
          exact Nat.le_add_right t auditTimerMs
    · have hstep : auditWorkerStep s (WEvent.recv e t) =
          { s with batch := s.batch ++ [(e, t)], now := t } := by
        simp [auditWorkerStep, hd, hsz]
      rw [hstep]
      refine ⟨hTle, ?_, hC⟩
      intro p hp
      rcases List.mem_append.mp hp with hpb | hpe
      · exact hB p hpb
      · rcases List.mem_singleton.mp hpe with rfl
        exact hTle
  | timer t =>
    simp only [WEvent.time] at h2 hTle
    by_cases hemp : s.batch.isEmpty
    · have hstep : auditWorkerStep s (WEvent.timer t) =
          { s with deadline := t + auditTimerMs, now := t } := by
        simp [auditWorkerStep, hd, hemp]
      rw [hstep]
      refine ⟨Nat.le_refl _, ?_, hC⟩
      intro p hp
      have hnil : s.batch = [] := by
        rw [List.isEmpty_iff_length_eq_zero] at hemp
        exact List.eq_nil_of_length_eq_zero hemp
      rw [hnil] at hp
      exact absurd hp (List.not_mem_nil p)
    · have hstep : auditWorkerStep s (WEvent.timer t) =
          { s with
              batch := [], deadline := t + auditTimerMs, now := t,
              flushes := s.flushes ++ [⟨FlushKind.timer, s.batch, t⟩] } := by
        simp [auditWorkerStep, hd, hemp]
      rw [hstep]
      refine ⟨Nat.le_refl _, fun p hp => absurd hp (List.not_mem_nil p), ?_⟩
      intro f hf
      rcases List.mem_append.mp hf with hold | hnewf
      · exact hC f hold
      · rcases List.mem_singleton.mp hnewf with rfl
        intro p hp
        exact le_trans h2 (hB p hp)
  | recvBatch b t =>
    simp only [WEvent.time] at h2 hTle
    have hstep : auditWorkerStep s (WEvent.recvBatch b t) =
        { s with
            now := t,
            flushes := s.flushes ++
              [⟨FlushKind.direct, b.map (fun e => (e, t)), t⟩] } := by
      simp [auditWorkerStep, hd]
    rw [hstep]
    refine ⟨hTle, hB, ?_⟩
    intro f hf
    rcases List.mem_append.mp hf with hold | hnewf
    · exact hC f hold
    · rcases List.mem_singleton.mp hnewf with rfl
      intro p hp
      rcases List.mem_map.mp hp with ⟨a, -, rfl⟩
      exact Nat.le_add_right t auditTimerMs
  | stop t =>
    simp only [WEvent.time] at h2 hTle
    by_cases hemp : s.batch.isEmpty
    · have hstep : auditWorkerStep s (WEvent.stop t) =
          { s with done := true, now := t } := by
        simp [auditWorkerStep, hd, hemp]
      rw [hstep]
      exact ⟨hTle, hB, hC⟩
    · have hstep : auditWorkerStep s (WEvent.stop t) =
          { s with
              batch := [], done := true, now := t,
              flushes := s.flushes ++ [⟨FlushKind.stop, s.batch, t⟩] } := by
        simp [auditWorkerStep, hd, hemp]
      rw [hstep]
      refine ⟨hTle, fun p hp => absurd hp (List.not_mem_nil p), ?_⟩
      intro f hf
      rcases List.mem_append.mp hf with hold | hnewf
      · exact hC f hold
      · rcases List.mem_singleton.mp hnewf with rfl
        intro p hp
        exact le_trans h2 (hB p hp)

/-- A well-timed run preserves the timing invariant. -/
theorem timeInv_run (evs : List WEvent) (s : WState)
    (hw : wellTimed s evs = true) (hinv : timeInv s) :
    timeInv (auditWorkerRun s evs) := by
  induction evs generalizing s with
  | nil => exact hinv
  | cons ev evs ih =>
    rw [auditWorkerRun]
    by_cases hd : s.done = true
    · rw [auditWorkerStep_done s ev hd]
      rw [wellTimed, if_pos hd] at hw
      exact ih s hw hinv
    · have hd2 : s.done = false := by simpa using hd
      rw [wellTimed, if_neg hd] at hw
      simp only [Bool.and_eq_true, decide_eq_true_eq] at hw
      obtain ⟨⟨⟨hn, hdl⟩, -⟩, hrest⟩ := hw
      exact ih _ hrest (timeInv_step s ev hd2 hn hdl hinv)

/-- C9: on a timer fire the worker flushes the local batch exactly when it
is non-empty and rearms the timer to fire `auditTimerMs` (100ms) later
regardless; and in every well-timed run (the runtime services the armed
timer by its fire instant) every flush of the worker happens within
`auditTimerMs` of the arrival of each of its entries — in particular within
100ms of the first un-flushed entry's arrival. -/
theorem c9_timer_flush_bounded_latency (evs : List WEvent)
    (hw : wellTimed initWState evs = true) :
    (∀ f ∈ (auditWorkerRun initWState evs).flushes, ∀ p ∈ f.items,
      f.time ≤ p.2 + auditTimerMs) ∧
    (∀ (s : WState) (t : Nat), s.done = false →
      auditWorkerStep s (WEvent.timer t) =
        (if s.batch.isEmpty then
          { s with deadline := t + auditTimerMs, now := t }
         else
          { s with
              batch := [], deadline := t + auditTimerMs, now := t,
              flushes := s.flushes ++ [⟨FlushKind.timer, s.batch, t⟩] })) := by
  constructor
  · have hinit : timeInv initWState := by
      refine ⟨by simp [initWState], ?_, ?_⟩ <;> simp [initWState]
    exact (timeInv_run evs initWState hw hinit).2.2
  · intro s t hds
    by_cases hemp : s.batch.isEmpty
    · rw [if_pos hemp]
      simp [auditWorkerStep, hds, hemp]
    · rw [if_neg hemp]
      simp [auditWorkerStep, hds, hemp]

/-- Witness for C9: one entry arrives at t = 30ms, the timer armed at start
fires at t = 100ms and flushes it — a latency of 70ms ≤ 100ms. -/
theorem c9_timer_flush_bounded_latency_witness :
    (auditWorkerRun initWState
      [WEvent.recv (sampleEntry 0) 30, WEvent.timer 100]).flushes =
      [⟨FlushKind.timer, [(sampleEntry 0, 30)], 100⟩] ∧
    (100 : Nat) ≤ 30 + auditTimerMs := by
  refine ⟨by decide, ?_⟩
  exact (c9_timer_flush_bounded_latency
      [WEvent.recv (sampleEntry 0) 30, WEvent.timer 100] (by decide)).1
    ⟨FlushKind.timer, [(sampleEntry 0, 30)], 100⟩ (by decide)
    (sampleEntry 0, 30) (by decide)

/-- C5 as stated is false: pre-formed batches are not consumed exclusively
by the dedicated `auditBatchWorker` — every per-event `auditWorker` also
selects on `auditBatchChan` (user_handlers.go:345-347).  Concrete
refutation: with one pre-formed batch on the batch queue, per-event worker 0
consumes and processes it. -/
theorem c5_per_event_worker_consumes_batch_counterexample :
    (pipelineRun initPState
      [PAct.enqueueBatch [sampleEntry 7], PAct.recvBatchWorker 0]).flushed =
      [(some 0, FlushKind.direct, [sampleEntry 7])] ∧
    (pipelineRun initPState
      [PAct.enqueueBatch [sampleEntry 7], PAct.recvBatchWorker 0]).batchQueue =
      [] := by
  exact ⟨by decide, by decide⟩

/-- C5 amended: pre-formed batches submitted on the batch queue bypass
per-event accumulation and are processed directly by whichever live worker
receives them — the dedicated `auditBatchWorker` or any of the per-event
`auditWorker`s, whose select loops all accept `auditBatchChan`; the
consuming per-event worker's local batch is left untouched. -/
theorem c5_batch_direct_processing (s : PState) (b : List auditLogEntry)
    (rest : List (List auditLogEntry)) (i : Nat) (w : PWorker)
    (hq : s.batchQueue = b :: rest) (hw : s.workers.get? i = some w)
    (hd : w.done = false) :
    pipelineStep s (PAct.recvBatchWorker i) =
      { s with batchQueue := rest,
               flushed := s.flushed ++ [(some i, FlushKind.direct, b)] } ∧
    (s.batchWorkerDone = false →
      pipelineStep s PAct.recvBatchDedicated =
        { s with batchQueue := rest,
                 flushed := s.flushed ++ [(none, FlushKind.direct, b)] }) := by
  have hw2 : s.workers[i]? = some w := by
    rw [← List.get?_eq_getElem?]
    exact hw
  constructor
  · simp [pipelineStep, hq, hw2, hd]
  · intro hbd
    simp [pipelineStep, hq, hbd]

/-- Witness for amended C5: per-event worker 1 consumes the queued
pre-formed batch directly. -/
theorem c5_batch_direct_processing_witness :
    pipelineStep (pipelineRun initPState [PAct.enqueueBatch [sampleEntry 7]])
        (PAct.recvBatchWorker 1) =
      { pipelineRun initPState [PAct.enqueueBatch [sampleEntry 7]] with
          batchQueue := [],
          flushed := [(some 1, FlushKind.direct, [sampleEntry 7])] } := by
  have h := c5_batch_direct_processing
    (pipelineRun initPState [PAct.enqueueBatch [sampleEntry 7]])
    [sampleEntry 7] [] 1 ⟨[], false⟩ (by decide) (by decide) rfl
  rw [h.1]
  decide

/-- Every pipeline step preserves the invariant that a returned worker has
an empty local batch: workers only set `done` in the stop arm, which flushes
the batch first. -/
theorem pipelineInv_step (s : PState) (a : PAct) (h : pipelineInv s) :
    pipelineInv (pipelineStep s a) := by
  have hset : ∀ (i : Nat) (v : PWorker), (v.done = true → v.batch = []) →
      ∀ w ∈ setWorker s.workers i v, w.done = true → w.batch = [] := by
    intro i v hv w hw
    rcases List.mem_or_eq_of_mem_set hw with hmem | rfl
    · exact h w hmem
    · exact hv
  cases a <;> simp only [pipelineStep] <;> (repeat' split) <;>
    first
      | (intro w hw; exact h w hw)
      | (intro w hw; exact hset _ _ (fun _ => rfl) w hw)
      | (intro w hw; exact hset _ _ (fun hc => absurd hc Bool.false_ne_true) w hw)

/-- A pipeline run from an invariant state stays invariant. -/
theorem pipelineInv_run (acts : List PAct) (s : PState) (h : pipelineInv s) :
    pipelineInv (pipelineRun s acts) := by
  induction acts generalizing s with
  | nil => exact h
  | cons a acts ih => exact ih _ (pipelineInv_step s a h)

/-- C1 as stated is false: `StopAuditLogger` does not drain the channels.
Concrete refutation: one event is successfully enqueued, `close(auditStopCh)`
happens, and every worker's select takes the always-ready stop arm — legal
in Go even while `auditLogChan` holds buffered data — flushes its (empty)
local batch and returns; `StopAuditLogger` returns with the enqueued event
still sitting in the ingestion queue, never committed and never logged. -/
theorem c1_shutdown_drain_counterexample :
    stopReturned (pipelineRun initPState c1Acts) ∧
    (pipelineRun initPState c1Acts).queue = [sampleEntry 0] ∧
    (pipelineRun initPState c1Acts).flushed = [] ∧
    (pipelineRun initPState c1Acts).logs = [] := by
  refine ⟨⟨by decide, by decide, by decide⟩, by decide, by decide, by decide⟩

/-- C1 amended: after `StopAuditLogger` returns, every worker has flushed
its local partial batch — no event remains in any worker's local batch —
but events still buffered in the ingestion queue or the pre-formed-batch
queue at that point may remain there unprocessed, neither committed nor
logged. -/
theorem c1_shutdown_flushes_local_batches (acts : List PAct)
    (h : stopReturned (pipelineRun initPState acts)) :
    ∀ w ∈ (pipelineRun initPState acts).workers, w.batch = [] := by
  intro w hw
  have hbase : pipelineInv initPState := by
    intro w hw hd
    have hrep : w = PWorker.mk [] false := List.eq_of_mem_replicate hw
    rw [hrep]
  exact pipelineInv_run acts initPState hbase w hw (h.2.2 w hw)

/-- Witness for amended C1 on the counterexample trace: the first worker's
local batch is empty once `StopAuditLogger` has returned. -/
theorem c1_shutdown_flushes_local_batches_witness :
    ((pipelineRun initPState c1Acts).workers.headD ⟨[], false⟩).batch = [] := by
  have h := c1_shutdown_flushes_local_batches c1Acts
    ⟨by decide, by decide, by decide⟩
  exact h _ (by decide)
